import Mathlib

/-
Verification of the instance-resolution and batch-operation engine of an
MCSManager chat-administration plugin (main.py), against its design
specification.

The Python source is shallowly embedded below.  Conventions:
  * Python dicts are association lists (`List (String × α)`) with
    insertion-order preservation and in-place overwrite (`insertA`).
  * Python floats used as sleep intervals are `ℚ`; clock readings
    (`time.time()` values) are `ℤ` — the cooldown logic only subtracts
    and compares them, for which integer instants are fully general.
  * `str.isdigit`, `str.lower`, `str.strip` and the `in` substring test
    are modelled at ASCII fidelity (`Char.isDigit`, `Char.toLower`,
    `Char.isWhitespace`, list infix), which is the range exercised by the
    program's identifiers.
  * Network effects of the batch command are modelled as an explicit
    event trace (`Event`): emitted chat messages, pacing sleeps, and
    panel API calls.
-/

/-! ## Association lists modelling Python dicts -/

/-- Python dict assignment `d[k] = v`: overwrite in place, else append. -/
def insertA {α : Type} : List (String × α) → String → α → List (String × α)
  | [], k, v => [(k, v)]
  | (k', v') :: t, k, v =>
    if k' = k then (k, v) :: t else (k', v') :: insertA t k v

/-- Python dict lookup `d.get(k)`. -/
def lookupA {α : Type} : List (String × α) → String → Option α
  | [], _ => none
  | (k', v) :: t, k => if k' = k then some v else lookupA t k

/-- Keys of an association list (with multiplicity). -/
def keysA {α : Type} (l : List (String × α)) : List String := l.map Prod.fst

/-! ## ASCII models of the Python string primitives used by the plugin -/

/-- Python `str.isdigit()` (ASCII model): nonempty and all decimal digits. -/
def isdigit (s : String) : Bool := !s.data.isEmpty && s.data.all Char.isDigit

/-- Python `str.strip()` (ASCII whitespace model). -/
def pyStrip (s : String) : String :=
  ⟨((s.data.dropWhile Char.isWhitespace).reverse.dropWhile Char.isWhitespace).reverse⟩

/-- Python `int(s)` on a string of decimal digits. -/
def pyInt (s : String) : Nat := s.data.foldl (fun n c => 10 * n + (c.toNat - 48)) 0

/-- Python `str.lower()` (ASCII model). -/
def pyLower (s : String) : String := ⟨s.data.map Char.toLower⟩

/-- Python substring test `needle in hay`. -/
def strContains (hay needle : String) : Bool := decide (needle.data <:+: hay.data)

/-! ## Identifier classifier (`_is_uuid_format`, `_detect_identifier_type`) -/

/-- The hexadecimal alphabet accepted by `_is_uuid_format`. -/
def hexChars : List Char := "0123456789abcdefABCDEF".data

/-- `_is_uuid_format`: 32 hexadecimal characters after removing hyphens. -/
def is_uuid_format (identifier : String) : Bool :=
  let cleaned := identifier.data.filter (fun c => c ≠ '-')
  cleaned.length == 32 && cleaned.all (fun c => hexChars.contains c)

/-- The three identifier classes of `_detect_identifier_type`. -/
inductive IdType where
  | number
  | uuid
  | name
deriving DecidableEq

/-- `_detect_identifier_type`: digits → number, else UUID shape → uuid, else name. -/
def detect_identifier_type (identifier : String) : IdType :=
  if isdigit identifier then .number
  else if is_uuid_format identifier then .uuid
  else .name

/-! ## Data model -/

/-- The configuration options consulted by the cache/resolution engine. -/
structure Config where
  filtered_nodes : List String
  filtered_instance_keywords : List String
deriving DecidableEq

/-- One raw instance object as returned by
`/service/remote_service_instances`.  `infoStatus` is
`instance["info"].get("status")` when the `"info"` key is present and
carries a status, and `none` otherwise. -/
structure RawInstance where
  nickname : Option String
  instanceUuid : String
  status : Option Int
  infoStatus : Option Int
deriving DecidableEq

/-- One node as seen by the refresh loop: its uuid, whether its
`remote_service_instances` query answered with status 200, and the
instance payload. -/
structure NodeResp where
  uuid : String
  ok : Bool
  instances : List RawInstance
deriving DecidableEq

/-- A surviving instance gathered into `instances_by_node`. -/
structure Surv where
  name : String
  uuid : String
  daemon_id : String
  status : Option Int
deriving DecidableEq

/-- One entry of `instance_data["instances"]`. -/
structure InstanceRecord where
  index : String
  name : String
  uuid : String
  daemon_id : String
  status : Option Int
deriving DecidableEq

/-- The `instance_data` cache.  `ambiguous_names` is a Python set; it is
modelled as the (duplicate-free) key list of the underlying dict. -/
structure InstanceData where
  instances : List InstanceRecord
  name_to_id : List (String × (String × String))
  uuid_to_id : List (String × (String × String))
  ambiguous_names : List String
deriving DecidableEq

/-! ## `_should_filter_instance` -/

/-- `_should_filter_instance`: with a nonempty keyword allow-list, an
instance is filtered out unless its name contains some nonempty keyword
(case-insensitive). -/
def should_filter_instance (cfg : Config) (instance_name : String) : Bool :=
  if cfg.filtered_instance_keywords.isEmpty then false
  else if cfg.filtered_instance_keywords.any
      (fun kw => !kw.isEmpty && strContains (pyLower instance_name) (pyLower kw)) then
    false
  else true

/-! ## Instance cache refresh (`_refresh_instance_cache_async`) -/

/-- Display name with the `"未命名"` fallback for an absent or empty
nickname (Python `... or "未命名"`). -/
def instName (inst : RawInstance) : String :=
  match inst.nickname with
  | some s => if s = "" then "未命名" else s
  | none => "未命名"

/-- Status with the nested `info.status` fallback. -/
def effStatus (inst : RawInstance) : Option Int :=
  match inst.status with
  | some v => some v
  | none => inst.infoStatus

/-- The instances of one node surviving the keyword filter. -/
def survivorsOf (cfg : Config) (node : NodeResp) : List Surv :=
  node.instances.filterMap (fun inst =>
    let n := instName inst
    if should_filter_instance cfg n then none
    else some ⟨n, inst.instanceUuid, node.uuid, effStatus inst⟩)

/-- Phase 1 of the refresh: build `instances_by_node`.  A node in the
exclusion list is skipped; a node whose query failed contributes an empty
group (the source first assigns `[]`, then appends the survivors only on
a 200 response). -/
def collectByNode (cfg : Config) (nodes : List NodeResp) : List (String × List Surv) :=
  nodes.foldl
    (fun acc node =>
      if node.uuid ∈ cfg.filtered_nodes then acc
      else insertA acc node.uuid (if node.ok then survivorsOf cfg node else []))
    []

/-- `all_instances`: the concatenation of the per-node groups. -/
def allInstances (groups : List (String × List Surv)) : List Surv :=
  (groups.map Prod.snd).flatten

/-- Phase 3 counting dict: `name_counts`. -/
def nameCounts (l : List Surv) : List (String × Nat) :=
  l.foldl (fun cnt inst => insertA cnt inst.name ((lookupA cnt inst.name).getD 0 + 1)) []

/-- `ambiguous_names`: names whose count exceeds one. -/
def ambiguousOf (l : List Surv) : List String :=
  ((nameCounts l).filter (fun p => p.2 > 1)).map Prod.fst

/-- Python string `<`: lexicographic comparison of the code-point
sequences (a proper prefix is smaller). -/
def charListLt : List Char → List Char → Bool
  | _, [] => false
  | [], _ :: _ => true
  | c1 :: t1, c2 :: t2 => if c1 = c2 then charListLt t1 t2 else decide (c1 < c2)

/-- Python string `<=` on the code-point sequences: `a <= b` iff not `b < a`. -/
def pyStrLe (a b : String) : Bool := ! charListLt b.data a.data

/-- Stable insertion of one survivor into a name-sorted list: the new
element goes after all elements whose name is ≤ its name. -/
def insSorted (x : Surv) : List Surv → List Surv
  | [] => [x]
  | y :: ys => if pyStrLe y.name x.name then y :: insSorted x ys else x :: y :: ys

/-- Python `list.sort(key=lambda x: x['name'])`: a stable sort by name
(stable sorts by the same key agree, so insertion sort is a faithful
model of Timsort here). -/
def pySortByName (l : List Surv) : List Surv :=
  l.foldl (fun acc x => insSorted x acc) []

/-- The mutable state threaded through phase 4 of the refresh. -/
structure CacheState where
  instances : List InstanceRecord
  name_to_id : List (String × (String × String))
  uuid_to_id : List (String × (String × String))
  idx : Nat
deriving DecidableEq

/-- Phase 4 inner loop: fold one node's (sorted) survivors into the
cache, numbering records with the running index. -/
def buildNode (amb : List String) (nu : String) : List Surv → CacheState → CacheState
  | [], st => st
  | s :: rest, st =>
    buildNode amb nu rest
      { instances := st.instances ++ [⟨toString st.idx, s.name, s.uuid, nu, s.status⟩]
        name_to_id :=
          if s.name ∈ amb then st.name_to_id
          else insertA st.name_to_id s.name (nu, s.uuid)
        uuid_to_id := insertA st.uuid_to_id s.uuid (nu, s.uuid)
        idx := st.idx + 1 }

/-- Phase 4 outer loop: per node in iteration order, skip empty groups,
sort by name, and fold into the cache. -/
def buildAll (amb : List String) : List (String × List Surv) → CacheState → CacheState
  | [], st => st
  | (nu, insts) :: rest, st =>
    if insts = [] then buildAll amb rest st
    else buildAll amb rest (buildNode amb nu (pySortByName insts) st)

/-- `_refresh_instance_cache_async`, from the overview node list and the
per-node instance responses to the rebuilt cache.  `none` models the
`return False` taken when the overview yields no nodes. -/
def refreshCache (cfg : Config) (nodes : List NodeResp) : Option InstanceData :=
  if nodes = [] then none
  else
    let groups := collectByNode cfg nodes
    let amb := ambiguousOf (allInstances groups)
    let st := buildAll amb groups ⟨[], [], [], 1⟩
    some ⟨st.instances, st.name_to_id, st.uuid_to_id, amb⟩

/-! ## The cache-building portion of `mcsm_list`

`mcsm_list` re-implements the refresh inline while also rendering the
listing text.  Only the cache-mutating computation is embedded here; the
rendered report (node headers, status glyphs, the `(☢重名)` tag) reads
the same data but writes nothing back.  The definitions below mirror the
`mcsm_list` loops (lines 639-751 of the source) one for one. -/

/-- `mcsm_list` phase 1 loop (identical collection logic; the
`node_details` map it additionally fills is display-only). -/
def listCollectByNode (cfg : Config) (nodes : List NodeResp) : List (String × List Surv) :=
  nodes.foldl
    (fun acc node =>
      if node.uuid ∈ cfg.filtered_nodes then acc
      else insertA acc node.uuid (if node.ok then survivorsOf cfg node else []))
    []

/-- `mcsm_list` phases 2-4: duplicate-name detection and cache build,
interleaved with the listing text construction (omitted: display only). -/
def listCacheBuild (cfg : Config) (nodes : List NodeResp) : Option InstanceData :=
  if nodes = [] then none
  else
    let groups := listCollectByNode cfg nodes
    let amb := ambiguousOf (allInstances groups)
    let st := buildAll amb groups ⟨[], [], [], 1⟩
    some ⟨st.instances, st.name_to_id, st.uuid_to_id, amb⟩

/-! ## Resolver (`_get_instance_by_identifier`) -/

/-- `_get_instance_by_identifier`: number → 1-based index into the
records, UUID shape → exact `uuid_to_id` key lookup, otherwise name via
`ambiguous_names` / `name_to_id`.  `none` is the not-found result. -/
def get_instance_by_identifier (cfg : Config) (d : InstanceData) (identifier0 : String) :
    Option (String × String) :=
  let identifier := pyStrip identifier0
  if isdigit identifier then
    let index := pyInt identifier
    if 0 < index ∧ index ≤ d.instances.length then
      match d.instances[index - 1]? with
      | some r =>
        if should_filter_instance cfg r.name then none else some (r.daemon_id, r.uuid)
      | none => none
    else none
  else if is_uuid_format identifier then
    match lookupA d.uuid_to_id identifier with
    | some (dm, iu) =>
      match d.instances.find? (fun r => r.uuid == iu) with
      | some r => if should_filter_instance cfg r.name then none else some (dm, iu)
      | none => some (dm, iu)
    | none => none
  else
    if identifier ∈ d.ambiguous_names then none
    else
      match lookupA d.name_to_id identifier with
      | some p => if should_filter_instance cfg identifier then none else some p
      | none => none

/-- The caller-visible resolution outcome, as distinguished by
`_process_single_instance`: an ambiguous name gets its own error
message, everything else unresolved is reported not-found. -/
inductive ResolveOutcome where
  | ok (daemon_id instance_uuid : String)
  | ambiguousName
  | notFound
deriving DecidableEq

/-- Resolution as seen through `_process_single_instance` lines 495-501. -/
def resolve_outcome (cfg : Config) (d : InstanceData) (identifier : String) : ResolveOutcome :=
  match get_instance_by_identifier cfg d identifier with
  | some (dm, iu) => .ok dm iu
  | none =>
    if identifier ∈ d.ambiguous_names then .ambiguousName else .notFound

/-! ## Cooldown tracker (`InstanceCooldownManager`) -/

/-- `check_cooldown`: cooling down iff fewer than 10 seconds have passed
since the recorded last action (absent entries read as time 0). -/
def check_cooldown (cooldowns : List (String × ℤ)) (now : ℤ) (instance_id : String) : Bool :=
  decide (now - ((lookupA cooldowns instance_id).getD 0) < 10)

/-- `set_cooldown`: record `now` as the instance's last action time. -/
def set_cooldown (cooldowns : List (String × ℤ)) (now : ℤ) (instance_id : String) :
    List (String × ℤ) :=
  insertA cooldowns instance_id now

/-! ## Batch orchestration (`_collect_instances_for_batch`, `mcsm_start`) -/

/-- One resolved batch entry `(ident, daemon_id, instance_id, instance_name)`. -/
structure BatchItem where
  ident : String
  daemon_id : String
  instance_id : String
  instance_name : String
deriving DecidableEq

/-- `_collect_instances_for_batch`.  `none` models the `(None, None)`
mixed-identifier-types result; otherwise the resolved items and the
identifiers that failed to resolve, each in input order. -/
def collect_instances_for_batch (cfg : Config) (d : InstanceData) (identifiers : List String) :
    Option (List BatchItem × List String) :=
  let ids := (identifiers.map pyStrip).filter (fun s => s ≠ "")
  match ids with
  | [] => some ([], [])
  | first :: _ =>
    if ids.all (fun i => decide (detect_identifier_type i = detect_identifier_type first)) then
      some (ids.foldl
        (fun acc ident =>
          match get_instance_by_identifier cfg d ident with
          | some (dm, iu) =>
            let nm :=
              match d.instances.find? (fun r => r.uuid == iu) with
              | some r => r.name
              | none => ident
            (acc.1 ++ [⟨ident, dm, iu, nm⟩], acc.2)
          | none => (acc.1, acc.2 ++ [ident]))
        ([], []))
    else none

/-- An observable effect of the batch handler: a chat message, a pacing
sleep, or a panel API call (`?uuid=&daemonId=`). -/
inductive Event where
  | emit (text : String)
  | sleep (secs : ℚ)
  | apiCall (endpoint : String) (uuid : String) (daemonId : String)
deriving DecidableEq

def Event.isEmit : Event → Bool
  | .emit _ => true
  | _ => false

def Event.isSleep : Event → Bool
  | .sleep _ => true
  | _ => false

def Event.isApiCall : Event → Bool
  | .apiCall _ _ _ => true
  | _ => false

/-- Does an event emit a message containing the given line? -/
def emitContains (ev : Event) (needle : String) : Bool :=
  match ev with
  | .emit t => decide (needle.data <:+: t.data)
  | _ => false

/-- The environment one loop iteration observes: the clock reading used
for the cooldown check (and, on success, for `set_cooldown`), and the
panel's response (`status` plus the error text the handler would render)
to the dispatch for that item.  Items are numbered from 1. -/
structure ItemEnv where
  now : ℤ
  respStatus : Int
  respErr : String

/-- The loop state of the batch branch of `mcsm_start` / `mcsm_stop`:
the shared cooldown dict, counters, detail and message accumulators,
plus the trace of effects so far. -/
structure BatchState where
  cooldowns : List (String × ℤ)
  success : Nat
  fails : Nat
  failDetails : List String
  resultMessages : List String
  events : List Event

/-- The per-item loop of the batch branch (`mcsm_start` lines 803-832;
`mcsm_stop` is the same loop with `opName`/`endpoint` swapped).  A
cooling-down item is skipped with an unconditional pacing sleep; a
dispatched item is followed by a pacing sleep only when it is not the
last (`idx < total`).  Per-item outcome lines are appended to
`resultMessages`, not emitted. -/
def batchLoop (interval : ℚ) (opName endpoint : String) (env : Nat → ItemEnv)
    (total : Nat) : Nat → List BatchItem → BatchState → BatchState
  | _, [], st => st
  | idx, item :: rest, st =>
    let e := env idx
    if check_cooldown st.cooldowns e.now item.instance_id then
      batchLoop interval opName endpoint env total (idx + 1) rest
        { st with
          resultMessages := st.resultMessages ++ ["⏳ " ++ item.instance_name ++ " 操作太快了，跳过"]
          fails := st.fails + 1
          failDetails := st.failDetails ++ [item.instance_name ++ ": 操作太快"]
          events := st.events ++ [Event.sleep interval] }
    else
      let st1 : BatchState :=
        if e.respStatus ≠ 200 then
          { st with
            resultMessages := st.resultMessages ++
              ["❌ " ++ item.instance_name ++ " " ++ opName ++ "失败: [" ++
                toString e.respStatus ++ "] " ++ e.respErr]
            fails := st.fails + 1
            failDetails := st.failDetails ++ [item.instance_name ++ ": " ++ e.respErr] }
        else
          { st with
            cooldowns := set_cooldown st.cooldowns e.now item.instance_id
            resultMessages := st.resultMessages ++
              ["✅ " ++ item.instance_name ++ " " ++ opName ++ "命令已发送"]
            success := st.success + 1 }
      batchLoop interval opName endpoint env total (idx + 1) rest
        { st1 with
          events := st.events ++ [Event.apiCall endpoint item.instance_id item.daemon_id] ++
            (if idx < total then [Event.sleep interval] else []) }

/-- The mixed-identifier-types refusal message. -/
def mixedTypesMsg : String :=
  "❌ 批量操作时所有标识符必须是同一类型（编号/UUID/名称），当前混合使用了不同类型"

/-- The single summary message assembled after the loop. -/
def batchSummary (opName : String) (st : BatchState) (failed : List String) : String :=
  "📊 批量" ++ opName ++ "完成: 成功 " ++ toString st.success ++ " 个，失败 " ++
      toString st.fails ++ " 个\n\n" ++
    String.intercalate "\n" st.resultMessages ++
    (if failed ≠ [] then "\n\n⚠️ 未找到的标识符: " ++ String.intercalate ", " failed else "") ++
    (if st.failDetails ≠ [] then "\n\n❌ 失败详情:\n" ++ String.intercalate "\n" st.failDetails
     else "")

/-- The batch branch of `mcsm_start` (taken when more than one
identifier was supplied), as an event trace. -/
def mcsm_start_batch (cfg : Config) (d : InstanceData) (cooldowns0 : List (String × ℤ))
    (interval : ℚ) (env : Nat → ItemEnv) (identifiers : List String) : List Event :=
  match collect_instances_for_batch cfg d identifiers with
  | none => [Event.emit mixedTypesMsg]
  | some (instances, failed) =>
    if instances = [] then [Event.emit "❌ 批量启动失败: 所有标识符都找不到对应的实例"]
    else
      let st := batchLoop interval "启动" "/protected_instance/open" env instances.length 1
        instances ⟨cooldowns0, 0, 0, [], [], []⟩
      [Event.emit ("🚀 开始批量启动 " ++ toString instances.length ++ " 个实例..."),
        Event.sleep interval] ++ st.events ++ [Event.emit (batchSummary "启动" st failed)]

/-! ## Derived shapes used to state the build postconditions -/

/-- The records one node block contributes, numbered from `startIdx`. -/
def blockRecords (nu : String) : Nat → List Surv → List InstanceRecord
  | _, [] => []
  | i, s :: rest => ⟨toString i, s.name, s.uuid, nu, s.status⟩ :: blockRecords nu (i + 1) rest

/-- The full records sequence: per-node blocks of name-sorted survivors,
concatenated in node order with a running index. -/
def joinBlocks (idx : Nat) : List (String × List Surv) → List InstanceRecord
  | [] => []
  | (nu, insts) :: rest =>
    blockRecords nu idx (pySortByName insts) ++
      joinBlocks (idx + (pySortByName insts).length) rest

/-- Number of surviving instances carrying a given display name. -/
def countName (l : List Surv) (n : String) : Nat :=
  l.countP (fun s => decide (s.name = n))

/-! ## Concrete scenario: two nodes, a cross-node duplicate name -/

/-- Configuration with no node exclusions and no keyword allow-list. -/
def cfg0 : Config := ⟨[], []⟩

def uA1 : String := "aaaaaaaaaaaaaaaaaaaaaaaaaaaaaaaa"

def uA2 : String := "bbbbbbbbbbbbbbbbbbbbbbbbbbbbbbbb"

def uB1 : String := "cccccccccccccccccccccccccccccccc"

/-- Node A answers with instances `Alpha`, `Beta`; node B with `Alpha`. -/
def scenNodes : List NodeResp :=
  [⟨"nodeA", true, [⟨some "Alpha", uA1, some 3, none⟩, ⟨some "Beta", uA2, some 0, none⟩]⟩,
   ⟨"nodeB", true, [⟨some "Alpha", uB1, some 3, none⟩]⟩]

/-- The cache the scenario refresh is expected to build. -/
def scenData : InstanceData :=
  ⟨[⟨"1", "Alpha", uA1, "nodeA", some 3⟩,
    ⟨"2", "Beta", uA2, "nodeA", some 0⟩,
    ⟨"3", "Alpha", uB1, "nodeB", some 3⟩],
   [("Beta", ("nodeA", uA2))],
   [(uA1, ("nodeA", uA1)), (uA2, ("nodeA", uA2)), (uB1, ("nodeB", uB1))],
   ["Alpha"]⟩

/-- Environment in which every dispatch is answered with status 200, at
clock reading 1000. -/
def envOK : Nat → ItemEnv := fun _ => ⟨1000, 200, ""⟩
theorem lookupA_insertA {α : Type} (l : List (String × α)) (k k' : String) (v : α) :
    lookupA (insertA l k v) k' = if k' = k then some v else lookupA l k' := by
  induction l with
  | nil =>
    by_cases h : k' = k
    · subst h; simp [insertA, lookupA]
    · simp [insertA, lookupA, h, Ne.symm h]
  | cons p t ih =>
    obtain ⟨pk, pv⟩ := p
    by_cases h1 : pk = k
    · subst h1
      by_cases h2 : k' = pk
      · subst h2; simp [insertA, lookupA]
      · simp [insertA, lookupA, h2, Ne.symm h2]
    · by_cases h2 : pk = k'
      · subst h2
        have hk : ¬ pk = k := h1
        simp [insertA, lookupA, h1, hk]
      · simp [insertA, lookupA, h1, h2, ih]

theorem keysA_insertA_nodup {α : Type} (l : List (String × α)) (k : String) (v : α)
    (h : (keysA l).Nodup) : (keysA (insertA l k v)).Nodup := by
  induction l with
  | nil => simp [insertA, keysA]
  | cons p t ih =>
    obtain ⟨pk, pv⟩ := p
    simp only [keysA, List.map_cons, List.nodup_cons] at h
    by_cases h1 : pk = k
    · subst h1
      simpa [insertA, keysA] using h
    · have ht := ih h.2
      simp only [insertA, h1, if_false, keysA, List.map_cons, List.nodup_cons]
      refine ⟨?_, ht⟩
      intro hmem
      have : ∀ x ∈ keysA (insertA t k v), x = k ∨ x ∈ keysA t := by
        intro x hx
        clear hmem ht ih h
        induction t with
        | nil => simpa [insertA, keysA] using hx
        | cons q u ihq =>
          obtain ⟨qk, qv⟩ := q
          by_cases h2 : qk = k
          · subst h2
            simp only [insertA, if_pos rfl, keysA, List.map_cons] at hx
            simpa [keysA] using hx
          · simp only [insertA, h2, if_false, keysA, List.map_cons, List.mem_cons] at hx
            rcases hx with hx | hx
            · right; simp [keysA, hx]
            · rcases ihq hx with hx' | hx'
              · left; exact hx'
              · right; simp [keysA] at hx' ⊢; tauto
      rcases this pk hmem with h2 | h2
      · exact h1 h2
      · exact h.1 (by simpa [keysA] using h2)

theorem lookupA_eq_none_of_not_mem_keys {α : Type} (l : List (String × α)) (k : String)
    (h : k ∉ keysA l) : lookupA l k = none := by
  induction l with
  | nil => rfl
  | cons p t ih =>
    obtain ⟨pk, pv⟩ := p
    simp only [keysA, List.map_cons, List.mem_cons, not_or] at h
    have : ¬ pk = k := fun hh => h.1 hh.symm
    simp only [lookupA, this, if_false]
    exact ih (by simpa [keysA] using h.2)

theorem not_isWhitespace_of_isDigit (c : Char) (h : c.isDigit = true) :
    c.isWhitespace = false := by
  have h1 : '0' ≤ c ∧ c ≤ '9' := by simpa [Char.isDigit] using h
  by_contra hw
  have hw' : c.isWhitespace = true := by
    cases hb : c.isWhitespace
    · exact absurd hb hw
    · rfl
  have hcases : ((c = ' ' ∨ c = '\t') ∨ c = '\r') ∨ c = '\n' := by
    simpa [Char.isWhitespace] using hw'
  rcases hcases with ((rfl | rfl) | rfl) | rfl <;> exact absurd h1.1 (by decide)

theorem pyStrip_eq_self_of_isdigit (s : String) (h : isdigit s = true) :
    pyStrip s = s := by
  rcases Bool.and_eq_true_iff.mp h with ⟨h1, h2⟩
  have hall : ∀ c ∈ s.data, c.isWhitespace = false := by
    intro c hc
    exact not_isWhitespace_of_isDigit c (by
      have := List.all_eq_true.mp h2 c hc
      simpa using this)
  have hdrop : ∀ (l : List Char), (∀ c ∈ l, c.isWhitespace = false) →
      l.dropWhile Char.isWhitespace = l := by
    intro l hl
    cases l with
    | nil => rfl
    | cons c t =>
      have := hl c (List.mem_cons_self c t)
      simp [List.dropWhile, this]
  show String.mk _ = s
  rw [hdrop _ hall, hdrop _ (by intro c hc; exact hall c (List.mem_reverse.mp hc)),
    List.reverse_reverse]

/-! ## Sorting lemmas -/

theorem insSorted_perm (x : Surv) (l : List Surv) : (insSorted x l).Perm (x :: l) := by
  induction l with
  | nil => exact List.Perm.refl _
  | cons y ys ih =>
    by_cases h : pyStrLe y.name x.name = true
    · simp only [insSorted, if_pos h]
      exact (List.Perm.cons y ih).trans (List.Perm.swap x y ys)
    · simp [insSorted, h]

theorem pySortByName_perm (l : List Surv) : (pySortByName l).Perm l := by
  suffices h : ∀ (l acc : List Surv),
      (l.foldl (fun acc x => insSorted x acc) acc).Perm (acc ++ l) by
    simpa using h l []
  intro l
  induction l with
  | nil => intro acc; simp
  | cons x t ih =>
    intro acc
    exact (ih (insSorted x acc)).trans
      ((List.Perm.append_right t (insSorted_perm x acc)).trans List.perm_middle.symm)

theorem charListLt_irrefl (a : List Char) : charListLt a a = false := by
  induction a with
  | nil => rfl
  | cons c t ih => simp [charListLt, ih]

theorem charListLt_trans (a b c : List Char) (hab : charListLt a b = true)
    (hbc : charListLt b c = true) : charListLt a c = true := by
  induction a generalizing b c with
  | nil =>
    cases c with
    | nil =>
      cases b with
      | nil => exact hab
      | cons c2 t2 => simp [charListLt] at hbc
    | cons c3 t3 => rfl
  | cons c1 t1 ih =>
    cases b with
    | nil => simp [charListLt] at hab
    | cons c2 t2 =>
      cases c with
      | nil => simp [charListLt] at hbc
      | cons c3 t3 =>
        simp only [charListLt] at hab hbc ⊢
        by_cases h12 : c1 = c2
        · subst h12
          rw [if_pos rfl] at hab
          by_cases h23 : c1 = c3
          · subst h23
            rw [if_pos rfl] at hbc
            rw [if_pos rfl]
            exact ih t2 t3 hab hbc
          · rw [if_neg h23] at hbc
            rw [if_neg h23]
            exact hbc
        · rw [if_neg h12] at hab
          by_cases h23 : c2 = c3
          · subst h23
            rw [if_neg h12]
            exact hab
          · rw [if_neg h23] at hbc
            have h13 : ¬ c1 = c3 := by
              intro hh
              subst hh
              exact absurd (lt_trans (of_decide_eq_true hab) (of_decide_eq_true hbc))
                (lt_irrefl c1)
            rw [if_neg h13]
            exact decide_eq_true (lt_trans (of_decide_eq_true hab) (of_decide_eq_true hbc))

theorem charListLt_connex (a b : List Char) (hab : charListLt a b = false)
    (hba : charListLt b a = false) : a = b := by
  induction a generalizing b with
  | nil =>
    cases b with
    | nil => rfl
    | cons c2 t2 => simp [charListLt] at hab
  | cons c1 t1 ih =>
    cases b with
    | nil => simp [charListLt] at hba
    | cons c2 t2 =>
      simp only [charListLt] at hab hba
      by_cases h12 : c1 = c2
      · subst h12
        rw [if_pos rfl] at hab hba
        rw [ih t2 hab hba]
      · rw [if_neg h12] at hab
        rw [if_neg (fun hh => h12 hh.symm)] at hba
        exfalso
        rcases lt_trichotomy c1 c2 with h | h | h
        · exact absurd (decide_eq_true h) (by simp [hab])
        · exact h12 h
        · exact absurd (decide_eq_true h) (by simp [hba])

theorem pyStrLe_of_not (a b : String) (h : ¬ pyStrLe a b = true) : pyStrLe b a = true := by
  have h' : charListLt b.data a.data = true := by
    simp only [pyStrLe, Bool.not_eq_true, Bool.not_eq_false'] at h
    exact h
  simp only [pyStrLe, Bool.not_eq_true']
  cases hc : charListLt a.data b.data
  · rfl
  · exact absurd (charListLt_trans _ _ _ hc h') (by simp [charListLt_irrefl])

theorem pyStrLe_trans (a b c : String) (hab : pyStrLe a b = true) (hbc : pyStrLe b c = true) :
    pyStrLe a c = true := by
  simp only [pyStrLe, Bool.not_eq_true'] at hab hbc ⊢
  cases hca : charListLt c.data a.data
  · rfl
  · exfalso
    cases hba : charListLt a.data b.data
    · have heq : a.data = b.data := charListLt_connex _ _ hba hab
      rw [heq] at hca
      exact absurd hca (by simp [hbc])
    · have hcb := charListLt_trans _ _ _ hca hba
      exact absurd hcb (by simp [hbc])

theorem insSorted_pairwise (x : Surv) (l : List Surv)
    (h : l.Pairwise (fun a b => pyStrLe a.name b.name = true)) :
    (insSorted x l).Pairwise (fun a b => pyStrLe a.name b.name = true) := by
  induction l with
  | nil => simp [insSorted, pyStrLe, charListLt_irrefl]
  | cons y ys ih =>
    rcases List.pairwise_cons.mp h with ⟨hy, hys⟩
    by_cases hle : pyStrLe y.name x.name = true
    · simp only [insSorted, if_pos hle]
      refine List.pairwise_cons.mpr ⟨?_, ih hys⟩
      intro b hb
      have hb' : b ∈ x :: ys := (insSorted_perm x ys).mem_iff.mp hb
      rcases List.mem_cons.mp hb' with rfl | hbys
      · exact hle
      · exact hy b hbys
    · have hxy : pyStrLe x.name y.name = true := pyStrLe_of_not _ _ hle
      simp only [insSorted, if_neg hle]
      refine List.pairwise_cons.mpr ⟨?_, h⟩
      intro b hb
      rcases List.mem_cons.mp hb with rfl | hbys
      · exact hxy
      · exact pyStrLe_trans _ _ _ hxy (hy b hbys)

theorem pySortByName_pairwise (l : List Surv) :
    (pySortByName l).Pairwise (fun a b => pyStrLe a.name b.name = true) := by
  suffices h : ∀ (l acc : List Surv), acc.Pairwise (fun a b => pyStrLe a.name b.name = true) →
      (l.foldl (fun acc x => insSorted x acc) acc).Pairwise
        (fun a b => pyStrLe a.name b.name = true) by
    exact h l [] (by simp)
  intro l
  induction l with
  | nil => intro acc hacc; simpa using hacc
  | cons x t ih => intro acc hacc; exact ih _ (insSorted_pairwise x acc hacc)

/-! ## Structure of the built records sequence -/

theorem blockRecords_length (nu : String) (idx : Nat) (l : List Surv) :
    (blockRecords nu idx l).length = l.length := by
  induction l generalizing idx with
  | nil => rfl
  | cons s t ih => simp [blockRecords, ih]

theorem mem_blockRecords (nu : String) (idx : Nat) (l : List Surv) (r : InstanceRecord)
    (h : r ∈ blockRecords nu idx l) : r.daemon_id = nu ∧ ∃ s ∈ l, r.name = s.name := by
  induction l generalizing idx with
  | nil => simp [blockRecords] at h
  | cons s t ih =>
    simp only [blockRecords, List.mem_cons] at h
    rcases h with rfl | h
    · exact ⟨rfl, s, List.mem_cons_self s t, rfl⟩
    · rcases ih (idx + 1) h with ⟨h1, s', hs', h2⟩
      exact ⟨h1, s', List.mem_cons_of_mem s hs', h2⟩

theorem blockRecords_index (nu : String) (idx : Nat) (l : List Surv) (i : Nat)
    (r : InstanceRecord) (h : (blockRecords nu idx l)[i]? = some r) :
    r.index = toString (idx + i) := by
  induction l generalizing idx i with
  | nil => simp [blockRecords] at h
  | cons s t ih =>
    cases i with
    | zero =>
      simp only [blockRecords, List.getElem?_cons_zero, Option.some.injEq] at h
      rw [← h]
      simp
    | succ j =>
      simp only [blockRecords, List.getElem?_cons_succ] at h
      rw [ih (idx + 1) j h]
      congr 1
      omega

theorem blockRecords_pairwise (nu : String) (idx : Nat) (l : List Surv)
    (h : l.Pairwise (fun a b => pyStrLe a.name b.name = true)) :
    (blockRecords nu idx l).Pairwise
      (fun a b : InstanceRecord => pyStrLe a.name b.name = true) := by
  induction l generalizing idx with
  | nil => simp [blockRecords]
  | cons s t ih =>
    rcases List.pairwise_cons.mp h with ⟨hs, ht⟩
    refine List.pairwise_cons.mpr ⟨?_, ih (idx + 1) ht⟩
    intro b hb
    rcases mem_blockRecords nu (idx + 1) t b hb with ⟨_, s', hs', hname⟩
    show pyStrLe s.name b.name = true
    rw [hname]
    exact hs s' hs'

theorem buildNode_instances_idx (amb : List String) (nu : String) (l : List Surv) :
    ∀ st : CacheState,
      (buildNode amb nu l st).instances = st.instances ++ blockRecords nu st.idx l ∧
      (buildNode amb nu l st).idx = st.idx + l.length := by
  induction l with
  | nil => intro st; simp [buildNode, blockRecords]
  | cons s t ih =>
    intro st
    simp only [buildNode]
    refine ⟨?_, ?_⟩
    · rw [(ih _).1]
      simp [blockRecords]
    · rw [(ih _).2]
      simp only [List.length_cons]
      omega

theorem buildNode_name_mem (amb : List String) (nu : String) (l : List Surv) :
    ∀ (st : CacheState) (n : String),
      (lookupA (buildNode amb nu l st).name_to_id n).isSome = true ↔
        (lookupA st.name_to_id n).isSome = true ∨ (n ∉ amb ∧ ∃ s ∈ l, s.name = n) := by
  induction l with
  | nil => intro st n; simp [buildNode]
  | cons s t ih =>
    intro st n
    simp only [buildNode]
    rw [ih]
    by_cases hamb : s.name ∈ amb
    · simp only [if_pos hamb]
      constructor
      · rintro (h | ⟨hn, s', hs', rfl⟩)
        · exact Or.inl h
        · exact Or.inr ⟨hn, s', List.mem_cons_of_mem s hs', rfl⟩
      · rintro (h | ⟨hn, s', hs', rfl⟩)
        · exact Or.inl h
        · rcases List.mem_cons.mp hs' with rfl | hs''
          · exact absurd hamb hn
          · exact Or.inr ⟨hn, s', hs'', rfl⟩
    · simp only [if_neg hamb]
      rw [show lookupA (insertA st.name_to_id s.name (nu, s.uuid)) n =
          if n = s.name then some (nu, s.uuid) else lookupA st.name_to_id n from
        lookupA_insertA _ _ _ _]
      by_cases hn : n = s.name
      · subst hn
        simp only [if_pos rfl, Option.isSome_some]
        constructor
        · intro _
          exact Or.inr ⟨hamb, s, List.mem_cons_self s t, rfl⟩
        · intro _
          exact Or.inl rfl
      · simp only [if_neg hn]
        constructor
        · rintro (h | ⟨hna, s', hs', rfl⟩)
          · exact Or.inl h
          · exact Or.inr ⟨hna, s', List.mem_cons_of_mem s hs', rfl⟩
        · rintro (h | ⟨hna, s', hs', rfl⟩)
          · exact Or.inl h
          · rcases List.mem_cons.mp hs' with rfl | hs''
            · exact absurd rfl hn
            · exact Or.inr ⟨hna, s', hs'', rfl⟩

theorem buildAll_instances (amb : List String) (groups : List (String × List Surv)) :
    ∀ st : CacheState,
      (buildAll amb groups st).instances = st.instances ++ joinBlocks st.idx groups ∧
      (buildAll amb groups st).idx = st.idx + (joinBlocks st.idx groups).length := by
  induction groups with
  | nil => intro st; simp [buildAll, joinBlocks]
  | cons g rest ih =>
    intro st
    obtain ⟨nu, insts⟩ := g
    have hunfold : buildAll amb ((nu, insts) :: rest) st =
        if insts = [] then buildAll amb rest st
        else buildAll amb rest (buildNode amb nu (pySortByName insts) st) := rfl
    have hjoin : joinBlocks st.idx ((nu, insts) :: rest) =
        blockRecords nu st.idx (pySortByName insts) ++
          joinBlocks (st.idx + (pySortByName insts).length) rest := rfl
    by_cases h : insts = []
    · rw [hunfold, if_pos h, hjoin, h]
      rw [(ih st).1, (ih st).2]
      simp [pySortByName, blockRecords]
    · rw [hunfold, if_neg h, hjoin]
      rw [(ih _).1, (ih _).2,
        (buildNode_instances_idx amb nu (pySortByName insts) st).1,
        (buildNode_instances_idx amb nu (pySortByName insts) st).2]
      constructor
      · simp [List.append_assoc]
      · simp only [List.length_append, blockRecords_length]
        omega

theorem buildAll_name_mem (amb : List String) (groups : List (String × List Surv)) :
    ∀ (st : CacheState) (n : String),
      (lookupA (buildAll amb groups st).name_to_id n).isSome = true ↔
        (lookupA st.name_to_id n).isSome = true ∨
          (n ∉ amb ∧ ∃ g ∈ groups, ∃ s ∈ g.2, s.name = n) := by
  induction groups with
  | nil => intro st n; simp [buildAll]
  | cons g rest ih =>
    intro st n
    obtain ⟨nu, insts⟩ := g
    have hunfold : buildAll amb ((nu, insts) :: rest) st =
        if insts = [] then buildAll amb rest st
        else buildAll amb rest (buildNode amb nu (pySortByName insts) st) := rfl
    by_cases h : insts = []
    · rw [hunfold, if_pos h, ih]
      constructor
      · rintro (h1 | ⟨hn, g', hg', hs⟩)
        · exact Or.inl h1
        · exact Or.inr ⟨hn, g', List.mem_cons_of_mem _ hg', hs⟩
      · rintro (h1 | ⟨hn, g', hg', s', hs', hname⟩)
        · exact Or.inl h1
        · rcases List.mem_cons.mp hg' with rfl | hg''
          · exact absurd hs' (by simp [h])
          · exact Or.inr ⟨hn, g', hg'', s', hs', hname⟩
    · rw [hunfold, if_neg h, ih, buildNode_name_mem]
      have hmem : ∀ s : Surv, s ∈ pySortByName insts ↔ s ∈ insts :=
        fun s => (pySortByName_perm insts).mem_iff
      constructor
      · rintro ((h1 | ⟨hn, s', hs', hname⟩) | ⟨hn, g', hg', s', hs', hname⟩)
        · exact Or.inl h1
        · exact Or.inr ⟨hn, (nu, insts), List.mem_cons_self _ _, s', (hmem s').mp hs', hname⟩
        · exact Or.inr ⟨hn, g', List.mem_cons_of_mem _ hg', s', hs', hname⟩
      · rintro (h1 | ⟨hn, g', hg', s', hs', hname⟩)
        · exact Or.inl (Or.inl h1)
        · rcases List.mem_cons.mp hg' with rfl | hg''
          · exact Or.inl (Or.inr ⟨hn, s', (hmem s').mpr hs', hname⟩)
          · exact Or.inr ⟨hn, g', hg'', s', hs', hname⟩

/-! ## Characterisation of the duplicate-name detection -/

theorem countName_cons (x : Surv) (t : List Surv) (n : String) :
    countName (x :: t) n = countName t n + (if x.name = n then 1 else 0) := by
  simp only [countName, List.countP_cons]
  by_cases h : x.name = n <;> simp [h]

theorem nameCounts_lookup (l : List Surv) (n : String) :
    lookupA (nameCounts l) n =
      if countName l n = 0 then none else some (countName l n) := by
  have aux : ∀ (l : List Surv) (acc : List (String × Nat)),
      lookupA (l.foldl
        (fun cnt inst => insertA cnt inst.name ((lookupA cnt inst.name).getD 0 + 1)) acc) n =
        if countName l n = 0 then lookupA acc n
        else some ((lookupA acc n).getD 0 + countName l n) := by
    intro l
    induction l with
    | nil => intro acc; simp [countName]
    | cons x t ih =>
      intro acc
      simp only [List.foldl_cons]
      rw [ih]
      by_cases hx : x.name = n
      · rw [show lookupA (insertA acc x.name ((lookupA acc x.name).getD 0 + 1)) n =
            if n = x.name then some ((lookupA acc x.name).getD 0 + 1)
            else lookupA acc n from lookupA_insertA _ _ _ _]
        rw [if_pos hx.symm, countName_cons, if_pos hx, hx]
        by_cases ht : countName t n = 0
        · simp [ht]
        · simp only [if_neg ht, if_neg (by omega : ¬ countName t n + 1 = 0),
            Option.getD_some, Option.some.injEq]
          omega
      · rw [show lookupA (insertA acc x.name ((lookupA acc x.name).getD 0 + 1)) n =
            if n = x.name then some ((lookupA acc x.name).getD 0 + 1)
            else lookupA acc n from lookupA_insertA _ _ _ _]
        have hn : ¬ n = x.name := fun hh => hx hh.symm
        rw [countName_cons, if_neg hx]
        simp [hn]
  rw [nameCounts, aux l []]
  simp [lookupA]

theorem nameCounts_keys_nodup (l : List Surv) : (keysA (nameCounts l)).Nodup := by
  have aux : ∀ (l : List Surv) (acc : List (String × Nat)), (keysA acc).Nodup →
      (keysA (l.foldl
        (fun cnt inst => insertA cnt inst.name ((lookupA cnt inst.name).getD 0 + 1))
        acc)).Nodup := by
    intro l
    induction l with
    | nil => intro acc h; exact h
    | cons x t ih => intro acc h; exact ih _ (keysA_insertA_nodup _ _ _ h)
  exact aux l [] (by simp [keysA])

theorem mem_map_fst_filter_gt (l : List (String × Nat)) (hnd : (keysA l).Nodup) (n : String) :
    n ∈ (l.filter (fun p => p.2 > 1)).map Prod.fst ↔
      ∃ v, lookupA l n = some v ∧ 1 < v := by
  induction l with
  | nil => simp [lookupA]
  | cons p t ih =>
    obtain ⟨k, v⟩ := p
    simp only [keysA, List.map_cons, List.nodup_cons] at hnd
    have hsub : ∀ m : String, m ∈ (t.filter (fun p => p.2 > 1)).map Prod.fst → m ∈ keysA t := by
      intro m hm
      rcases List.mem_map.mp hm with ⟨q, hq, rfl⟩
      exact List.mem_map.mpr ⟨q, (List.mem_filter.mp hq).1, rfl⟩
    by_cases hk : k = n
    · subst hk
      constructor
      · intro hmem
        by_cases hv : 1 < v
        · exact ⟨v, by simp [lookupA], hv⟩
        · exfalso
          have heq : (((k, v) :: t).filter (fun p => p.2 > 1)) = t.filter (fun p => p.2 > 1) :=
            List.filter_cons_of_neg (by simpa using hv)
          rw [heq] at hmem
          exact hnd.1 (by simpa [keysA] using hsub k hmem)
      · rintro ⟨w, hw, hw1⟩
        have hwv : v = w := by simpa [lookupA] using hw
        subst hwv
        have heq : (((k, v) :: t).filter (fun p => p.2 > 1)) =
            (k, v) :: t.filter (fun p => p.2 > 1) :=
          List.filter_cons_of_pos (by simpa using hw1)
        rw [heq]
        simp
    · have hlook : lookupA ((k, v) :: t) n = lookupA t n := by
        simp [lookupA, hk]
      have hmemiff : n ∈ (((k, v) :: t).filter (fun p => p.2 > 1)).map Prod.fst ↔
          n ∈ (t.filter (fun p => p.2 > 1)).map Prod.fst := by
        by_cases hv : 1 < v
        · rw [List.filter_cons_of_pos (by simpa using hv)]
          simp only [List.map_cons, List.mem_cons]
          constructor
          · rintro (rfl | hmm)
            · exact absurd rfl hk
            · exact hmm
          · exact fun hmm => Or.inr hmm
        · rw [List.filter_cons_of_neg (by simpa using hv)]
      rw [hmemiff, hlook]
      exact ih hnd.2

theorem mem_ambiguousOf (l : List Surv) (n : String) :
    n ∈ ambiguousOf l ↔ 1 < countName l n := by
  rw [ambiguousOf, mem_map_fst_filter_gt _ (nameCounts_keys_nodup l), nameCounts_lookup]
  by_cases h : countName l n = 0
  · simp [h]
  · simp only [if_neg h, Option.some.injEq]
    constructor
    · rintro ⟨v, rfl, hv⟩
      exact hv
    · intro hv
      exact ⟨countName l n, rfl, hv⟩

/-! ## Daemon grouping and index contiguity of the full record sequence -/

theorem joinBlocks_index (groups : List (String × List Surv)) :
    ∀ (idx i : Nat) (r : InstanceRecord),
      (joinBlocks idx groups)[i]? = some r → r.index = toString (idx + i) := by
  induction groups with
  | nil => intro idx i r h; simp [joinBlocks] at h
  | cons g rest ih =>
    intro idx i r h
    obtain ⟨nu, insts⟩ := g
    simp only [joinBlocks] at h
    rw [List.getElem?_append] at h
    by_cases hi : i < (blockRecords nu idx (pySortByName insts)).length
    · rw [if_pos hi] at h
      exact blockRecords_index nu idx _ i r h
    · rw [if_neg hi] at h
      rw [ih _ _ r h]
      have hlen := blockRecords_length nu idx (pySortByName insts)
      congr 1
      omega

theorem joinBlocks_daemon_mem (groups : List (String × List Surv)) :
    ∀ (idx : Nat) (r : InstanceRecord),
      r ∈ joinBlocks idx groups → r.daemon_id ∈ keysA groups := by
  induction groups with
  | nil => intro idx r h; simp [joinBlocks] at h
  | cons g rest ih =>
    intro idx r h
    obtain ⟨nu, insts⟩ := g
    simp only [joinBlocks, List.mem_append] at h
    rcases h with h | h
    · rcases mem_blockRecords _ _ _ _ h with ⟨hd, _⟩
      simp [keysA, hd]
    · have := ih _ r h
      simp only [keysA, List.map_cons, List.mem_cons]
      exact Or.inr (by simpa [keysA] using this)

theorem joinBlocks_chain (groups : List (String × List Surv)) :
    (keysA groups).Nodup →
    ∀ idx : Nat,
      List.Chain'
        (fun r1 r2 : InstanceRecord =>
          r1.daemon_id = r2.daemon_id → pyStrLe r1.name r2.name = true)
        (joinBlocks idx groups) := by
  induction groups with
  | nil => intro _ idx; simp [joinBlocks]
  | cons g rest ih =>
    intro hnd idx
    obtain ⟨nu, insts⟩ := g
    simp only [keysA, List.map_cons, List.nodup_cons] at hnd
    simp only [joinBlocks]
    rw [List.chain'_append]
    refine ⟨?_, ih (by simpa [keysA] using hnd.2) _, ?_⟩
    · exact ((blockRecords_pairwise nu idx _ (pySortByName_pairwise insts)).imp
        (fun {r1 r2} (h : pyStrLe r1.name r2.name = true)
          (_ : r1.daemon_id = r2.daemon_id) => h)).chain'
    · intro x hx y hy heq
      exfalso
      have hxmem : x ∈ blockRecords nu idx (pySortByName insts) := by
        rcases List.mem_getLast?_eq_getLast hx with ⟨hne, hx2⟩
        rw [hx2]
        exact List.getLast_mem hne
      have hxd : x.daemon_id = nu := (mem_blockRecords _ _ _ _ hxmem).1
      have hymem : y ∈ joinBlocks (idx + (pySortByName insts).length) rest :=
        List.mem_of_mem_head? hy
      have hyd : y.daemon_id ∈ keysA rest := joinBlocks_daemon_mem rest _ y hymem
      rw [← heq, hxd] at hyd
      exact hnd.1 (by simpa [keysA] using hyd)

theorem collectByNode_keys_nodup (cfg : Config) (nodes : List NodeResp) :
    (keysA (collectByNode cfg nodes)).Nodup := by
  have aux : ∀ (ns : List NodeResp) (acc : List (String × List Surv)),
      (keysA acc).Nodup →
      (keysA (ns.foldl
        (fun acc node =>
          if node.uuid ∈ cfg.filtered_nodes then acc
          else insertA acc node.uuid (if node.ok then survivorsOf cfg node else []))
        acc)).Nodup := by
    intro ns
    induction ns with
    | nil => intro acc h; exact h
    | cons nd rest ih =>
      intro acc h
      simp only [List.foldl_cons]
      by_cases hf : nd.uuid ∈ cfg.filtered_nodes
      · rw [if_pos hf]; exact ih _ h
      · rw [if_neg hf]; exact ih _ (keysA_insertA_nodup _ _ _ h)
  exact aux nodes [] (by simp [keysA])

theorem exists_mem_groups_iff_countName_pos (groups : List (String × List Surv)) (n : String) :
    (∃ g ∈ groups, ∃ s ∈ g.2, s.name = n) ↔ 0 < countName (allInstances groups) n := by
  rw [countName, List.countP_pos_iff]
  constructor
  · rintro ⟨g, hg, s, hs, rfl⟩
    exact ⟨s, by
      rw [allInstances]
      exact List.mem_flatten.mpr ⟨g.2, List.mem_map.mpr ⟨g, hg, rfl⟩, hs⟩, by simp⟩
  · rintro ⟨s, hsmem, hname⟩
    rw [allInstances] at hsmem
    rcases List.mem_flatten.mp hsmem with ⟨l, hl, hs⟩
    rcases List.mem_map.mp hl with ⟨g, hg, hgl⟩
    exact ⟨g, hg, s, by rw [hgl]; exact hs, by simpa using hname⟩

theorem refreshCache_some (cfg : Config) (nodes : List NodeResp) (h : ¬ nodes = []) :
    refreshCache cfg nodes = some
      ⟨(buildAll (ambiguousOf (allInstances (collectByNode cfg nodes)))
          (collectByNode cfg nodes) ⟨[], [], [], 1⟩).instances,
        (buildAll (ambiguousOf (allInstances (collectByNode cfg nodes)))
          (collectByNode cfg nodes) ⟨[], [], [], 1⟩).name_to_id,
        (buildAll (ambiguousOf (allInstances (collectByNode cfg nodes)))
          (collectByNode cfg nodes) ⟨[], [], [], 1⟩).uuid_to_id,
        ambiguousOf (allInstances (collectByNode cfg nodes))⟩ := by
  rw [refreshCache, if_neg h]

/-- C1: after every successful refresh, the rebuilt cache satisfies the
build postcondition — records carry contiguous 1-based indices in
node-iteration order with each node's records name-sorted (adjacent
records of the same daemon are in order, and blocks are contiguous per
daemon), `ambiguous_names` is exactly the set of names occurring more
than once among all surviving instances, and a name is a `name_to_id`
key iff it occurs exactly once; on the two-node scenario (node A:
`Alpha`, `Beta`; node B: `Alpha`) the refresh yields exactly the cache
`scenData`: `ambiguousNames = {"Alpha"}`, index 1 = (nodeA, Alpha),
index 2 = (nodeA, Beta), index 3 = (nodeB, Alpha), and `name_to_id`
contains only `Beta`. -/
theorem c1_refresh_build_postconditions :
    (∀ (cfg : Config) (nodes : List NodeResp) (d : InstanceData),
        refreshCache cfg nodes = some d →
          (∀ (i : Nat) (r : InstanceRecord), d.instances[i]? = some r →
            r.index = toString (i + 1)) ∧
          (∀ n : String,
            n ∈ d.ambiguous_names ↔
              1 < countName (allInstances (collectByNode cfg nodes)) n) ∧
          (∀ n : String,
            (lookupA d.name_to_id n).isSome = true ↔
              countName (allInstances (collectByNode cfg nodes)) n = 1) ∧
          (∀ (i : Nat) (r1 r2 : InstanceRecord),
            d.instances[i]? = some r1 → d.instances[i + 1]? = some r2 →
            r1.daemon_id = r2.daemon_id → pyStrLe r1.name r2.name = true)) ∧
      refreshCache cfg0 scenNodes = some scenData := by
  constructor
  · intro cfg nodes d h
    have hne : ¬ nodes = [] := by
      intro hnil
      rw [refreshCache, if_pos hnil] at h
      exact Option.noConfusion h
    rw [refreshCache_some cfg nodes hne] at h
    obtain rfl := (Option.some.inj h).symm
    dsimp only
    have hbig : (buildAll (ambiguousOf (allInstances (collectByNode cfg nodes)))
        (collectByNode cfg nodes) ⟨[], [], [], 1⟩).instances =
        joinBlocks 1 (collectByNode cfg nodes) := by
      rw [(buildAll_instances _ _ _).1]
      simp
    refine ⟨?_, ?_, ?_, ?_⟩
    · intro i r hr
      rw [hbig] at hr
      rw [joinBlocks_index _ 1 i r hr]
      congr 1
      omega
    · intro n
      exact mem_ambiguousOf _ n
    · intro n
      rw [buildAll_name_mem]
      have hocc := exists_mem_groups_iff_countName_pos (collectByNode cfg nodes) n
      have hamb := mem_ambiguousOf (allInstances (collectByNode cfg nodes)) n
      constructor
      · rintro (h1 | ⟨hn, hex⟩)
        · simp [lookupA] at h1
        · have h2 := hocc.mp hex
          have h3 : ¬ 1 < countName (allInstances (collectByNode cfg nodes)) n := by
            intro hgt
            exact hn (hamb.mpr hgt)
          omega
      · intro hc
        refine Or.inr ⟨?_, hocc.mpr (by omega)⟩
        intro hmem
        have := hamb.mp hmem
        omega
    · intro i r1 r2 h1 h2 heq
      rw [hbig] at h1 h2
      have hchain := joinBlocks_chain (collectByNode cfg nodes)
        (collectByNode_keys_nodup cfg nodes) 1
      rw [List.chain'_iff_get] at hchain
      rcases List.getElem?_eq_some.mp h1 with ⟨hlt1, hget1⟩
      rcases List.getElem?_eq_some.mp h2 with ⟨hlt2, hget2⟩
      have hi : i < (joinBlocks 1 (collectByNode cfg nodes)).length - 1 := by omega
      have hcc := hchain i hi
      rw [List.get_eq_getElem, List.get_eq_getElem] at hcc
      rw [hget1, hget2] at hcc
      exact hcc heq
  · decide

/-- Witness for C1: the build postconditions applied to the concrete
two-node scenario, with the refresh hypothesis discharged by
computation. -/
theorem c1_refresh_build_postconditions_witness :
    ("Alpha" ∈ scenData.ambiguous_names ↔
      1 < countName (allInstances (collectByNode cfg0 scenNodes)) "Alpha") ∧
    ((lookupA scenData.name_to_id "Beta").isSome = true ↔
      countName (allInstances (collectByNode cfg0 scenNodes)) "Beta" = 1) :=
  ⟨(c1_refresh_build_postconditions.1 cfg0 scenNodes scenData (by decide)).2.1 "Alpha",
   (c1_refresh_build_postconditions.1 cfg0 scenNodes scenData (by decide)).2.2.1 "Beta"⟩

/-- C3 counterexample: on the empty token every character is (vacuously)
a decimal digit, yet the classifier returns `Name`, refuting the
claimed "Number iff every character of the token is a decimal digit"
at the concrete input `""` (Python's `"".isdigit()` is `False`). -/
theorem c3_counterexample :
    ¬ (detect_identifier_type "" = IdType.number ↔ ("".data.all Char.isDigit = true)) := by
  decide

/-- C3 (amended): the classifier returns `Number` iff the token is
nonempty and every character is a decimal digit; otherwise `UUID` iff
after removing hyphens exactly 32 hexadecimal characters remain;
otherwise `Name`.  The Number check precedes the UUID check — a
32-digit all-numeric string classifies as `Number`, never `UUID` — and
the function is total with no failure mode, classifying the empty token
as `Name`. -/
theorem c3_classifier (s : String) :
    (detect_identifier_type s = IdType.number ↔
      (s.data ≠ [] ∧ s.data.all Char.isDigit = true)) ∧
    (detect_identifier_type s = IdType.uuid ↔
      (¬ (s.data ≠ [] ∧ s.data.all Char.isDigit = true) ∧ is_uuid_format s = true)) ∧
    (detect_identifier_type s = IdType.name ↔
      (¬ (s.data ≠ [] ∧ s.data.all Char.isDigit = true) ∧ ¬ is_uuid_format s = true)) ∧
    detect_identifier_type (String.mk (List.replicate 32 '0')) = IdType.number ∧
    detect_identifier_type "" = IdType.name := by
  have hdig : isdigit s = true ↔ (s.data ≠ [] ∧ s.data.all Char.isDigit = true) := by
    rw [isdigit, Bool.and_eq_true, Bool.not_eq_true']
    constructor
    · rintro ⟨h1, h2⟩
      exact ⟨by simpa [List.isEmpty_iff] using h1, h2⟩
    · rintro ⟨h1, h2⟩
      exact ⟨by simpa [List.isEmpty_iff] using h1, h2⟩
  refine ⟨?_, ?_, ?_, by decide, by decide⟩
  · rw [detect_identifier_type, ← hdig]
    by_cases hd : isdigit s = true
    · simp only [if_pos hd]
      constructor
      · intro _; exact hd
      · intro _; trivial
    · rw [if_neg hd]
      constructor
      · intro hcase
        by_cases hu : is_uuid_format s = true
        · rw [if_pos hu] at hcase; exact IdType.noConfusion hcase
        · rw [if_neg hu] at hcase; exact IdType.noConfusion hcase
      · intro hc; exact absurd hc hd
  · rw [detect_identifier_type]
    by_cases hd : isdigit s = true
    · simp only [if_pos hd]
      constructor
      · intro hcase; exact IdType.noConfusion hcase
      · rintro ⟨h1, _⟩; exact absurd (hdig.mp hd) h1
    · rw [if_neg hd]
      by_cases hu : is_uuid_format s = true
      · simp only [if_pos hu]
        constructor
        · intro _
          refine ⟨?_, hu⟩
          rw [← hdig]
          exact hd
        · intro _; trivial
      · simp only [if_neg hu]
        constructor
        · intro hcase; exact IdType.noConfusion hcase
        · rintro ⟨_, h2⟩; exact absurd h2 hu
  · rw [detect_identifier_type]
    by_cases hd : isdigit s = true
    · simp only [if_pos hd]
      constructor
      · intro hcase; exact IdType.noConfusion hcase
      · rintro ⟨h1, _⟩; exact absurd (hdig.mp hd) h1
    · rw [if_neg hd]
      by_cases hu : is_uuid_format s = true
      · simp only [if_pos hu]
        constructor
        · intro hcase; exact IdType.noConfusion hcase
        · rintro ⟨_, h2⟩; exact absurd hu h2
      · simp only [if_neg hu]
        constructor
        · intro _
          refine ⟨?_, hu⟩
          rw [← hdig]
          exact hd
        · intro _; trivial

theorem pyStrip_eq_self_of_no_ws (s : String)
    (hall : ∀ c ∈ s.data, c.isWhitespace = false) : pyStrip s = s := by
  have hdrop : ∀ (l : List Char), (∀ c ∈ l, c.isWhitespace = false) →
      l.dropWhile Char.isWhitespace = l := by
    intro l hl
    cases l with
    | nil => rfl
    | cons c t =>
      have := hl c (List.mem_cons_self c t)
      simp [List.dropWhile, this]
  show String.mk _ = s
  rw [hdrop _ hall, hdrop _ (by intro c hc; exact hall c (List.mem_reverse.mp hc)),
    List.reverse_reverse]

theorem pyStrip_eq_self_of_uuid_format (s : String) (h : is_uuid_format s = true) :
    pyStrip s = s := by
  apply pyStrip_eq_self_of_no_ws
  intro c hc
  simp only [is_uuid_format] at h
  rcases Bool.and_eq_true_iff.mp h with ⟨_, hall⟩
  by_cases hhy : c = '-'
  · subst hhy; decide
  · have hcin : c ∈ s.data.filter (fun c => c ≠ '-') := by
      rw [List.mem_filter]
      exact ⟨hc, by simpa using hhy⟩
    have hhex := List.all_eq_true.mp hall c hcin
    have hmem : c ∈ hexChars := by simpa using hhex
    fin_cases hmem <;> decide

theorem detect_name_elim (s : String) (h : detect_identifier_type s = IdType.name) :
    isdigit s = false ∧ is_uuid_format s = false := by
  rw [detect_identifier_type] at h
  by_cases hd : isdigit s = true
  · rw [if_pos hd] at h; exact IdType.noConfusion h
  · rw [if_neg hd] at h
    by_cases hu : is_uuid_format s = true
    · rw [if_pos hu] at h; exact IdType.noConfusion h
    · exact ⟨Bool.not_eq_true _ ▸ Bool.of_not_eq_true hd, Bool.of_not_eq_true hu⟩

theorem detect_number_elim (s : String) (h : detect_identifier_type s = IdType.number) :
    isdigit s = true := by
  rw [detect_identifier_type] at h
  by_cases hd : isdigit s = true
  · exact hd
  · rw [if_neg hd] at h
    by_cases hu : is_uuid_format s = true
    · rw [if_pos hu] at h; exact IdType.noConfusion h
    · rw [if_neg hu] at h; exact IdType.noConfusion h

theorem detect_uuid_elim (s : String) (h : detect_identifier_type s = IdType.uuid) :
    isdigit s = false ∧ is_uuid_format s = true := by
  rw [detect_identifier_type] at h
  by_cases hd : isdigit s = true
  · rw [if_pos hd] at h; exact IdType.noConfusion h
  · rw [if_neg hd] at h
    by_cases hu : is_uuid_format s = true
    · exact ⟨Bool.of_not_eq_true hd, hu⟩
    · rw [if_neg hu] at h; exact IdType.noConfusion h

/-- C2: for an identifier that classifies as `Name` (whitespace-trimmed,
as every caller passes tokens already split on whitespace): membership
in the ambiguous-name set yields the distinct `ambiguousName` outcome —
never reported as `notFound` — while a non-ambiguous name absent from
`name_to_id` yields `notFound`.  Consequently, in the concrete
duplicate-name scenario, `"Alpha"` resolves to `ambiguousName`, yet both
`Alpha` instances remain resolvable by their UUIDs and their indices
(`"1"` and `"3"`). -/
theorem c2_name_resolution :
    (∀ (cfg : Config) (d : InstanceData) (identifier : String),
        detect_identifier_type identifier = IdType.name →
        pyStrip identifier = identifier →
        (identifier ∈ d.ambiguous_names →
          resolve_outcome cfg d identifier = ResolveOutcome.ambiguousName) ∧
        (identifier ∉ d.ambiguous_names → lookupA d.name_to_id identifier = none →
          resolve_outcome cfg d identifier = ResolveOutcome.notFound)) ∧
    resolve_outcome cfg0 scenData "Alpha" = ResolveOutcome.ambiguousName ∧
    resolve_outcome cfg0 scenData uA1 = ResolveOutcome.ok "nodeA" uA1 ∧
    resolve_outcome cfg0 scenData uB1 = ResolveOutcome.ok "nodeB" uB1 ∧
    resolve_outcome cfg0 scenData "1" = ResolveOutcome.ok "nodeA" uA1 ∧
    resolve_outcome cfg0 scenData "3" = ResolveOutcome.ok "nodeB" uB1 := by
  refine ⟨?_, by decide, by decide, by decide, by decide, by decide⟩
  intro cfg d identifier hname hstrip
  rcases detect_name_elim identifier hname with ⟨hnd, hnu⟩
  constructor
  · intro hamb
    have hget : get_instance_by_identifier cfg d identifier = none := by
      rw [get_instance_by_identifier, hstrip]
      simp [hnd, hnu, hamb]
    simp only [resolve_outcome, hget]
    simp [hamb]
  · intro hamb hlook
    have hget : get_instance_by_identifier cfg d identifier = none := by
      rw [get_instance_by_identifier, hstrip]
      simp [hnd, hnu, hamb, hlook]
    simp only [resolve_outcome, hget]
    simp [hamb]

/-- Witness for C2 at the ambiguous scenario name `"Alpha"`. -/
theorem c2_name_resolution_witness :
    resolve_outcome cfg0 scenData "Alpha" = ResolveOutcome.ambiguousName :=
  (c2_name_resolution.1 cfg0 scenData "Alpha" (by decide) (by decide)).1 (by decide)

/-- C4: an identifier classified as `Number` is interpreted as a 1-based
index into the cached records; an out-of-range index resolves to
not-found with no fallback to name interpretation — even when the digit
string is a `name_to_id` key — and an in-range index whose record fails
the keyword allow-list also resolves to not-found; otherwise the indexed
record's (daemon, uuid) pair is returned. -/
theorem c4_number_resolution (cfg : Config) (d : InstanceData) (s : String)
    (h : detect_identifier_type s = IdType.number) :
    (¬ (0 < pyInt s ∧ pyInt s ≤ d.instances.length) →
      get_instance_by_identifier cfg d s = none) ∧
    (¬ (0 < pyInt s ∧ pyInt s ≤ d.instances.length) →
      ∀ p : String × String, lookupA d.name_to_id s = some p →
      get_instance_by_identifier cfg d s = none) ∧
    (∀ r : InstanceRecord, d.instances[pyInt s - 1]? = some r →
      0 < pyInt s → pyInt s ≤ d.instances.length →
      should_filter_instance cfg r.name = true →
      get_instance_by_identifier cfg d s = none) ∧
    (∀ r : InstanceRecord, d.instances[pyInt s - 1]? = some r →
      0 < pyInt s → pyInt s ≤ d.instances.length →
      should_filter_instance cfg r.name = false →
      get_instance_by_identifier cfg d s = some (r.daemon_id, r.uuid)) := by
  have hd : isdigit s = true := detect_number_elim s h
  have hstrip : pyStrip s = s := pyStrip_eq_self_of_isdigit s hd
  refine ⟨?_, ?_, ?_, ?_⟩
  · intro hrange
    rw [get_instance_by_identifier, hstrip, if_pos hd, if_neg hrange]
  · intro hrange p _
    rw [get_instance_by_identifier, hstrip, if_pos hd, if_neg hrange]
  · intro r hr h0 hlen hf
    rw [get_instance_by_identifier, hstrip, if_pos hd, if_pos ⟨h0, hlen⟩]
    simp only [hr, hf]
    simp
  · intro r hr h0 hlen hf
    rw [get_instance_by_identifier, hstrip, if_pos hd, if_pos ⟨h0, hlen⟩]
    simp only [hr, hf]
    simp

/-- Witness for C4: index `9` is out of range in the scenario cache and
resolves to not-found; index `1` resolves to node A's `Alpha`. -/
theorem c4_number_resolution_witness :
    get_instance_by_identifier cfg0 scenData "9" = none ∧
    get_instance_by_identifier cfg0 scenData "1" =
      some (("nodeA" : String), uA1) :=
  ⟨(c4_number_resolution cfg0 scenData "9" (by decide)).1 (by decide),
   (c4_number_resolution cfg0 scenData "1" (by decide)).2.2.2
     ⟨"1", "Alpha", uA1, "nodeA", some 3⟩ (by decide) (by decide) (by decide) (by decide)⟩

/-- C9: UUID resolution is an exact string match against the cached
`uuid_to_id` keys: an identifier classified as UUID resolves
successfully only when its trimmed form is literally a stored key (and
the stored pair is returned unchanged); concretely, the cache stores the
32-character lowercase key `uA1`, whose hyphenated and uppercase
variants are accepted by the classifier yet resolve to not-found, while
the exact key resolves. -/
theorem c9_uuid_exact_match :
    (∀ (cfg : Config) (d : InstanceData) (s : String) (p : String × String),
        detect_identifier_type s = IdType.uuid →
        get_instance_by_identifier cfg d s = some p →
        lookupA d.uuid_to_id (pyStrip s) = some p) ∧
    detect_identifier_type "aaaaaaaa-aaaa-aaaa-aaaa-aaaaaaaaaaaa" = IdType.uuid ∧
    get_instance_by_identifier cfg0 scenData "aaaaaaaa-aaaa-aaaa-aaaa-aaaaaaaaaaaa" = none ∧
    detect_identifier_type "AAAAAAAAAAAAAAAAAAAAAAAAAAAAAAAA" = IdType.uuid ∧
    get_instance_by_identifier cfg0 scenData "AAAAAAAAAAAAAAAAAAAAAAAAAAAAAAAA" = none ∧
    get_instance_by_identifier cfg0 scenData uA1 = some (("nodeA" : String), uA1) := by
  refine ⟨?_, by decide, by decide, by decide, by decide, by decide⟩
  intro cfg d s p hu hres
  rcases detect_uuid_elim s hu with ⟨hnd, huu⟩
  have hstrip : pyStrip s = s := pyStrip_eq_self_of_uuid_format s huu
  rw [get_instance_by_identifier, hstrip, if_neg (by simp [hnd]), if_pos huu] at hres
  rw [hstrip]
  cases hlook : lookupA d.uuid_to_id s with
  | none =>
    rw [hlook] at hres
    exact Option.noConfusion (show (none : Option (String × String)) = some p from hres)
  | some q =>
    obtain ⟨dm, iu⟩ := q
    rw [hlook] at hres
    have hres' : (match d.instances.find? (fun r => r.uuid == iu) with
        | some r => if should_filter_instance cfg r.name = true then none else some (dm, iu)
        | none => some (dm, iu)) = some p := hres
    cases hfind : d.instances.find? (fun r => r.uuid == iu) with
    | none =>
      rw [hfind] at hres'
      exact hres'
    | some r =>
      rw [hfind] at hres'
      have hres2 : (if should_filter_instance cfg r.name = true then none
          else some (dm, iu)) = some p := hres'
      by_cases hf : should_filter_instance cfg r.name = true
      · rw [if_pos hf] at hres2
        exact Option.noConfusion (show (none : Option (String × String)) = some p from hres2)
      · rw [if_neg hf] at hres2
        exact hres2

/-- Witness for C9: the exact lowercase key resolves, so the trimmed
identifier is a stored `uuid_to_id` key. -/
theorem c9_uuid_exact_match_witness :
    lookupA scenData.uuid_to_id (pyStrip uA1) = some (("nodeA" : String), uA1) :=
  c9_uuid_exact_match.1 cfg0 scenData uA1 (("nodeA" : String), uA1) (by decide) (by decide)

/-- C5: a batch whose stripped, nonempty identifier list has mixed
classifications (some entry classifies differently from the first —
which requires at least two entries) fails as a whole:
`_collect_instances_for_batch` returns the mixed-types marker without
resolving any identifier, and the `mcsm_start` batch branch emits only
the mixed-types refusal with no API call dispatched; concretely so for
`["abc", "2"]`. -/
theorem c5_mixed_types (cfg : Config) (d : InstanceData) (cooldowns0 : List (String × ℤ))
    (interval : ℚ) (env : Nat → ItemEnv) (identifiers : List String)
    (first : String) (rest : List String)
    (hids : (identifiers.map pyStrip).filter (fun s => s ≠ "") = first :: rest)
    (hmix : ∃ i ∈ first :: rest, detect_identifier_type i ≠ detect_identifier_type first) :
    collect_instances_for_batch cfg d identifiers = none ∧
    mcsm_start_batch cfg d cooldowns0 interval env identifiers = [Event.emit mixedTypesMsg] ∧
    (∀ e ∈ mcsm_start_batch cfg d cooldowns0 interval env identifiers,
      e.isApiCall = false) ∧
    collect_instances_for_batch cfg0 scenData ["abc", "2"] = none ∧
    mcsm_start_batch cfg0 scenData [] 2 envOK ["abc", "2"] = [Event.emit mixedTypesMsg] := by
  have hall : ((first :: rest).all
      (fun i => decide (detect_identifier_type i = detect_identifier_type first))) = false := by
    rcases hmix with ⟨i, hi, hne⟩
    cases hb : ((first :: rest).all
        (fun i => decide (detect_identifier_type i = detect_identifier_type first)))
    · rfl
    · exact absurd (of_decide_eq_true (List.all_eq_true.mp hb i hi)) hne
  have hcol : collect_instances_for_batch cfg d identifiers = none := by
    rw [collect_instances_for_batch]
    simp only [hids, hall]
    rfl
  have htrace : mcsm_start_batch cfg d cooldowns0 interval env identifiers =
      [Event.emit mixedTypesMsg] := by
    rw [mcsm_start_batch]
    simp only [hcol]
  refine ⟨hcol, htrace, ?_, by decide, by decide⟩
  intro e he
  rw [htrace] at he
  rcases List.mem_singleton.mp he with rfl
  rfl

/-- Witness for C5 at the mixed list `["abc", "2"]`. -/
theorem c5_mixed_types_witness :
    collect_instances_for_batch cfg0 scenData ["abc", "2"] = none :=
  (c5_mixed_types cfg0 scenData [] 2 envOK ["abc", "2"] "abc" ["2"] (by decide)
    ⟨"2", by decide, by decide⟩).1

/-- C6: the cooldown tracker reports an instance as cooling down iff
strictly fewer than 10 seconds have passed since its recorded
last-action time, an absent entry meaning not cooling down (for any
clock reading ≥ 10 — the code reads an absent entry as time 0, and real
epoch clocks are far beyond 10); a successful dispatch records the
current time.  Consequently a batch item for an instance checked within
10 seconds of a successful dispatch is skipped — only a pacing sleep,
no API call, counted as a failure — while one checked 10 or more
seconds later proceeds to dispatch the API call. -/
theorem c6_cooldown :
    (∀ (cooldowns : List (String × ℤ)) (now : ℤ) (id : String),
        lookupA cooldowns id = none → 10 ≤ now →
        check_cooldown cooldowns now id = false) ∧
    (∀ (cooldowns : List (String × ℤ)) (now last : ℤ) (id : String),
        lookupA cooldowns id = some last →
        (check_cooldown cooldowns now id = true ↔ now - last < 10)) ∧
    (∀ (cooldowns : List (String × ℤ)) (now : ℤ) (id : String),
        lookupA (set_cooldown cooldowns now id) id = some now) ∧
    (∀ (c : List (String × ℤ)) (t0 t : ℤ) (item : BatchItem) (interval : ℚ)
        (opName endpoint : String) (env : Nat → ItemEnv) (total idx : Nat) (st : BatchState),
        st.cooldowns = set_cooldown c t0 item.instance_id →
        (env idx).now = t →
        (t - t0 < 10 →
          (batchLoop interval opName endpoint env total idx [item] st).events =
            st.events ++ [Event.sleep interval] ∧
          (batchLoop interval opName endpoint env total idx [item] st).fails = st.fails + 1 ∧
          (batchLoop interval opName endpoint env total idx [item] st).success = st.success) ∧
        (10 ≤ t - t0 →
          (batchLoop interval opName endpoint env total idx [item] st).events =
            st.events ++ [Event.apiCall endpoint item.instance_id item.daemon_id] ++
              (if idx < total then [Event.sleep interval] else []))) := by
  have hset : ∀ (c : List (String × ℤ)) (now : ℤ) (id : String),
      lookupA (set_cooldown c now id) id = some now := by
    intro c now id
    rw [set_cooldown, lookupA_insertA]
    simp
  refine ⟨?_, ?_, hset, ?_⟩
  · intro c now id hl hn
    rw [check_cooldown, hl]
    simp only [Option.getD_none, decide_eq_false_iff_not, not_lt]
    linarith
  · intro c now last id hl
    rw [check_cooldown, hl]
    simp
  · intro c t0 t item interval opName endpoint env total idx st hst henv
    have hlook : lookupA st.cooldowns item.instance_id = some t0 := by
      rw [hst]
      exact hset c t0 item.instance_id
    constructor
    · intro hlt
      have hcc : check_cooldown st.cooldowns (env idx).now item.instance_id = true := by
        rw [check_cooldown, hlook, henv]
        simpa using hlt
      simp only [batchLoop, hcc, if_true]
      exact ⟨by trivial, by trivial, by trivial⟩
    · intro hge
      have hcc : check_cooldown st.cooldowns (env idx).now item.instance_id = false := by
        rw [check_cooldown, hlook, henv]
        simp only [Option.getD_some, decide_eq_false_iff_not, not_lt]
        linarith
      simp only [batchLoop, hcc]
      rfl

/-- Witness for C6: after a successful dispatch at time 1000, an attempt
at 1005 produces only a pacing sleep (and a counted failure), and an
attempt at 1012 dispatches the API call. -/
theorem c6_cooldown_witness :
    (batchLoop 2 "启动" "/protected_instance/open" (fun _ => ⟨1005, 200, ""⟩) 1 1
        [⟨"1", "nodeA", uA1, "Alpha"⟩]
        ⟨set_cooldown [] 1000 uA1, 0, 0, [], [], []⟩).events =
      ([] : List Event) ++ [Event.sleep 2] ∧
    (batchLoop 2 "启动" "/protected_instance/open" (fun _ => ⟨1012, 200, ""⟩) 1 1
        [⟨"1", "nodeA", uA1, "Alpha"⟩]
        ⟨set_cooldown [] 1000 uA1, 0, 0, [], [], []⟩).events =
      ([] : List Event) ++ [Event.apiCall "/protected_instance/open" uA1 "nodeA"] ++
        (if 1 < 1 then [Event.sleep 2] else []) :=
  ⟨((c6_cooldown.2.2.2 [] 1000 1005 ⟨"1", "nodeA", uA1, "Alpha"⟩ 2 "启动"
      "/protected_instance/open" (fun _ => ⟨1005, 200, ""⟩) 1 1
      ⟨set_cooldown [] 1000 uA1, 0, 0, [], [], []⟩ rfl rfl).1 (by norm_num)).1,
   (c6_cooldown.2.2.2 [] 1000 1012 ⟨"1", "nodeA", uA1, "Alpha"⟩ 2 "启动"
      "/protected_instance/open" (fun _ => ⟨1012, 200, ""⟩) 1 1
      ⟨set_cooldown [] 1000 uA1, 0, 0, [], [], []⟩ rfl rfl).2 (by norm_num)⟩

theorem batchLoop_cons (interval : ℚ) (opName endpoint : String) (env : Nat → ItemEnv)
    (total idx : Nat) (item : BatchItem) (rest : List BatchItem) (st : BatchState) :
    batchLoop interval opName endpoint env total idx (item :: rest) st =
      if check_cooldown st.cooldowns (env idx).now item.instance_id then
        batchLoop interval opName endpoint env total (idx + 1) rest
          { st with
            resultMessages := st.resultMessages ++
              ["⏳ " ++ item.instance_name ++ " 操作太快了，跳过"]
            fails := st.fails + 1
            failDetails := st.failDetails ++ [item.instance_name ++ ": 操作太快"]
            events := st.events ++ [Event.sleep interval] }
      else
        batchLoop interval opName endpoint env total (idx + 1) rest
          { (if (env idx).respStatus ≠ 200 then
              { st with
                resultMessages := st.resultMessages ++
                  ["❌ " ++ item.instance_name ++ " " ++ opName ++ "失败: [" ++
                    toString (env idx).respStatus ++ "] " ++ (env idx).respErr]
                fails := st.fails + 1
                failDetails := st.failDetails ++
                  [item.instance_name ++ ": " ++ (env idx).respErr] }
            else
              { st with
                cooldowns := set_cooldown st.cooldowns (env idx).now item.instance_id
                resultMessages := st.resultMessages ++
                  ["✅ " ++ item.instance_name ++ " " ++ opName ++ "命令已发送"]
                success := st.success + 1 }) with
            events := st.events ++ [Event.apiCall endpoint item.instance_id item.daemon_id] ++
              (if idx < total then [Event.sleep interval] else []) } := rfl

theorem batchLoop_events (interval : ℚ) (opName endpoint : String) (env : Nat → ItemEnv)
    (total : Nat) :
    ∀ (items : List BatchItem) (idx : Nat) (st : BatchState),
      ∃ extra : List Event,
        (batchLoop interval opName endpoint env total idx items st).events =
          st.events ++ extra ∧
        (∀ e ∈ extra, e.isEmit = false) ∧
        List.Sublist (extra.filter Event.isApiCall)
          (items.map (fun it => Event.apiCall endpoint it.instance_id it.daemon_id)) := by
  intro items
  induction items with
  | nil =>
    intro idx st
    exact ⟨[], by simp [batchLoop], by simp, by simp⟩
  | cons item rest ih =>
    intro idx st
    rw [batchLoop_cons]
    by_cases hcc : check_cooldown st.cooldowns (env idx).now item.instance_id = true
    · rw [if_pos hcc]
      obtain ⟨extra, he, hne, hsl⟩ := ih (idx + 1)
        { st with
          resultMessages := st.resultMessages ++
            ["⏳ " ++ item.instance_name ++ " 操作太快了，跳过"]
          fails := st.fails + 1
          failDetails := st.failDetails ++ [item.instance_name ++ ": 操作太快"]
          events := st.events ++ [Event.sleep interval] }
      refine ⟨[Event.sleep interval] ++ extra, ?_, ?_, ?_⟩
      · rw [he]
        simp
      · intro e hee
        rcases List.mem_append.mp hee with h1 | h1
        · rcases List.mem_singleton.mp h1 with rfl
          rfl
        · exact hne e h1
      · rw [List.filter_append]
        rw [show ([Event.sleep interval].filter Event.isApiCall) = [] from rfl,
          List.nil_append, List.map_cons]
        exact hsl.cons _
    · rw [if_neg hcc]
      obtain ⟨extra, he, hne, hsl⟩ := ih (idx + 1)
        { (if (env idx).respStatus ≠ 200 then
            { st with
              resultMessages := st.resultMessages ++
                ["❌ " ++ item.instance_name ++ " " ++ opName ++ "失败: [" ++
                  toString (env idx).respStatus ++ "] " ++ (env idx).respErr]
              fails := st.fails + 1
              failDetails := st.failDetails ++
                [item.instance_name ++ ": " ++ (env idx).respErr] }
          else
            { st with
              cooldowns := set_cooldown st.cooldowns (env idx).now item.instance_id
              resultMessages := st.resultMessages ++
                ["✅ " ++ item.instance_name ++ " " ++ opName ++ "命令已发送"]
              success := st.success + 1 }) with
          events := st.events ++ [Event.apiCall endpoint item.instance_id item.daemon_id] ++
            (if idx < total then [Event.sleep interval] else []) }
      refine ⟨[Event.apiCall endpoint item.instance_id item.daemon_id] ++
        (if idx < total then [Event.sleep interval] else []) ++ extra, ?_, ?_, ?_⟩
      · rw [he]
        simp
      · intro e hee
        rcases List.mem_append.mp hee with h1 | h1
        · rcases List.mem_append.mp h1 with h2 | h2
          · rcases List.mem_singleton.mp h2 with rfl
            rfl
          · by_cases hp : idx < total
            · rw [if_pos hp] at h2
              rcases List.mem_singleton.mp h2 with rfl
              rfl
            · rw [if_neg hp] at h2
              exact absurd h2 (List.not_mem_nil e)
        · exact hne e h1
      · rw [List.filter_append, List.filter_append]
        rw [show ([Event.apiCall endpoint item.instance_id item.daemon_id].filter
          Event.isApiCall) = [Event.apiCall endpoint item.instance_id item.daemon_id] from rfl]
        have hpad : ((if idx < total then [Event.sleep interval] else []).filter
            Event.isApiCall) = [] := by
          by_cases hp : idx < total
          · rw [if_pos hp]; rfl
          · rw [if_neg hp]; rfl
        rw [hpad, List.append_nil, List.map_cons]
        exact hsl.cons₂ _

theorem mcsm_start_batch_some (cfg : Config) (d : InstanceData)
    (cooldowns0 : List (String × ℤ)) (interval : ℚ) (env : Nat → ItemEnv)
    (identifiers : List String) (items : List BatchItem) (failed : List String)
    (hcol : collect_instances_for_batch cfg d identifiers = some (items, failed))
    (hne : ¬ items = []) :
    mcsm_start_batch cfg d cooldowns0 interval env identifiers =
      [Event.emit ("🚀 开始批量启动 " ++ toString items.length ++ " 个实例..."),
        Event.sleep interval] ++
      (batchLoop interval "启动" "/protected_instance/open" env items.length 1 items
        ⟨cooldowns0, 0, 0, [], [], []⟩).events ++
      [Event.emit (batchSummary "启动"
        (batchLoop interval "启动" "/protected_instance/open" env items.length 1 items
          ⟨cooldowns0, 0, 0, [], [], []⟩) failed)] := by
  rw [mcsm_start_batch]
  simp only [hcol]
  rw [if_neg hne]

/-- C7 counterexample: for the two-item batch `["1", "2"]` against the
scenario cache (all dispatches succeeding), the emitted trace is the
start announcement, a pause, the two API calls separated by a pause, and
then one single final message; in particular no message containing item
1's outcome line `✅ Alpha 启动命令已发送` occurs among the first four
events — i.e. before item 2's dispatch at position 4 — refuting the
claim that each item's outcome message is emitted before the next item
begins; the outcome line appears only inside the final summary
(position 5). -/
theorem c7_counterexample :
    mcsm_start_batch cfg0 scenData [] 2 envOK ["1", "2"] =
      [Event.emit "🚀 开始批量启动 2 个实例...",
        Event.sleep 2,
        Event.apiCall "/protected_instance/open" uA1 "nodeA",
        Event.sleep 2,
        Event.apiCall "/protected_instance/open" uA2 "nodeA",
        Event.emit
          "📊 批量启动完成: 成功 2 个，失败 0 个\n\n✅ Alpha 启动命令已发送\n✅ Beta 启动命令已发送"] ∧
    ((mcsm_start_batch cfg0 scenData [] 2 envOK ["1", "2"]).take 4).all
      (fun e => ! emitContains e "✅ Alpha 启动命令已发送") = true ∧
    ((mcsm_start_batch cfg0 scenData [] 2 envOK ["1", "2"])[5]?.map
      (fun e => emitContains e "✅ Alpha 启动命令已发送")) = some true := by
  refine ⟨by decide, by decide, by decide⟩

/-- C7 (amended): within one batch run of `mcsm_start`, items are
dispatched strictly in input order — the API-call events form an
in-order sublist of the per-item calls — and the batch-start
announcement and initial pause precede the loop; but per-item outcome
messages are NOT emitted between items: the loop emits no message
events at all, and every outcome line is deferred to the single final
summary message. -/
theorem c7_batch_order_deferred_output (cfg : Config) (d : InstanceData)
    (cooldowns0 : List (String × ℤ)) (interval : ℚ) (env : Nat → ItemEnv)
    (identifiers : List String) (items : List BatchItem) (failed : List String)
    (hcol : collect_instances_for_batch cfg d identifiers = some (items, failed))
    (hne : ¬ items = []) :
    ∃ loopEvents : List Event,
      mcsm_start_batch cfg d cooldowns0 interval env identifiers =
        [Event.emit ("🚀 开始批量启动 " ++ toString items.length ++ " 个实例..."),
          Event.sleep interval] ++ loopEvents ++
        [Event.emit (batchSummary "启动"
          (batchLoop interval "启动" "/protected_instance/open" env items.length 1 items
            ⟨cooldowns0, 0, 0, [], [], []⟩) failed)] ∧
      (∀ e ∈ loopEvents, e.isEmit = false) ∧
      List.Sublist (loopEvents.filter Event.isApiCall)
        (items.map (fun it =>
          Event.apiCall "/protected_instance/open" it.instance_id it.daemon_id)) := by
  obtain ⟨extra, he, hnemit, hsl⟩ := batchLoop_events interval "启动" "/protected_instance/open"
    env items.length items 1 ⟨cooldowns0, 0, 0, [], [], []⟩
  refine ⟨extra, ?_, hnemit, hsl⟩
  rw [mcsm_start_batch_some cfg d cooldowns0 interval env identifiers items failed hcol hne, he]
  rfl

/-- Witness for C7 (amended) at the concrete batch `["1", "2"]`. -/
theorem c7_batch_order_deferred_output_witness :
    ∃ loopEvents : List Event,
      mcsm_start_batch cfg0 scenData [] 2 envOK ["1", "2"] =
        [Event.emit ("🚀 开始批量启动 " ++
            toString ([(⟨"1", "nodeA", uA1, "Alpha"⟩ : BatchItem),
              ⟨"2", "nodeA", uA2, "Beta"⟩].length) ++ " 个实例..."),
          Event.sleep 2] ++ loopEvents ++
        [Event.emit (batchSummary "启动"
          (batchLoop 2 "启动" "/protected_instance/open" envOK 2 1
            [⟨"1", "nodeA", uA1, "Alpha"⟩, ⟨"2", "nodeA", uA2, "Beta"⟩]
            ⟨[], 0, 0, [], [], []⟩) [])] ∧
      (∀ e ∈ loopEvents, e.isEmit = false) ∧
      List.Sublist (loopEvents.filter Event.isApiCall)
        ([(⟨"1", "nodeA", uA1, "Alpha"⟩ : BatchItem), ⟨"2", "nodeA", uA2, "Beta"⟩].map
          (fun it => Event.apiCall "/protected_instance/open" it.instance_id it.daemon_id)) :=
  c7_batch_order_deferred_output cfg0 scenData [] 2 envOK ["1", "2"]
    [⟨"1", "nodeA", uA1, "Alpha"⟩, ⟨"2", "nodeA", uA2, "Beta"⟩] [] (by decide) (by decide)

theorem batchLoop_segments (interval : ℚ) (opName endpoint : String) (env : Nat → ItemEnv)
    (total : Nat) :
    ∀ (items : List BatchItem) (idx : Nat) (st : BatchState),
      ∃ segs : List (List Event),
        (batchLoop interval opName endpoint env total idx items st).events =
          st.events ++ segs.flatten ∧
        segs.length = items.length ∧
        ∀ (j : Nat) (seg : List Event), segs[j]? = some seg →
          seg = [Event.sleep interval] ∨
          ∃ u dm : String, seg = Event.apiCall endpoint u dm ::
            (if idx + j < total then [Event.sleep interval] else []) := by
  intro items
  induction items with
  | nil =>
    intro idx st
    exact ⟨[], by simp [batchLoop], rfl, by intro j seg h; simp at h⟩
  | cons item rest ih =>
    intro idx st
    rw [batchLoop_cons]
    by_cases hcc : check_cooldown st.cooldowns (env idx).now item.instance_id = true
    · rw [if_pos hcc]
      obtain ⟨segs, he, hlen, hseg⟩ := ih (idx + 1)
        { st with
          resultMessages := st.resultMessages ++
            ["⏳ " ++ item.instance_name ++ " 操作太快了，跳过"]
          fails := st.fails + 1
          failDetails := st.failDetails ++ [item.instance_name ++ ": 操作太快"]
          events := st.events ++ [Event.sleep interval] }
      refine ⟨[Event.sleep interval] :: segs, ?_, by simp [hlen], ?_⟩
      · rw [he]
        simp
      · intro j seg hj
        cases j with
        | zero =>
          simp only [List.getElem?_cons_zero, Option.some.injEq] at hj
          exact Or.inl hj.symm
        | succ k =>
          simp only [List.getElem?_cons_succ] at hj
          rcases hseg k seg hj with h | ⟨u, dm, hs⟩
          · exact Or.inl h
          · refine Or.inr ⟨u, dm, ?_⟩
            rw [hs]
            have harith : idx + 1 + k = idx + (k + 1) := by omega
            rw [harith]
    · rw [if_neg hcc]
      obtain ⟨segs, he, hlen, hseg⟩ := ih (idx + 1)
        { (if (env idx).respStatus ≠ 200 then
            { st with
              resultMessages := st.resultMessages ++
                ["❌ " ++ item.instance_name ++ " " ++ opName ++ "失败: [" ++
                  toString (env idx).respStatus ++ "] " ++ (env idx).respErr]
              fails := st.fails + 1
              failDetails := st.failDetails ++
                [item.instance_name ++ ": " ++ (env idx).respErr] }
          else
            { st with
              cooldowns := set_cooldown st.cooldowns (env idx).now item.instance_id
              resultMessages := st.resultMessages ++
                ["✅ " ++ item.instance_name ++ " " ++ opName ++ "命令已发送"]
              success := st.success + 1 }) with
          events := st.events ++ [Event.apiCall endpoint item.instance_id item.daemon_id] ++
            (if idx < total then [Event.sleep interval] else []) }
      refine ⟨(Event.apiCall endpoint item.instance_id item.daemon_id ::
        (if idx < total then [Event.sleep interval] else [])) :: segs, ?_, by simp [hlen], ?_⟩
      · rw [he]
        simp
      · intro j seg hj
        cases j with
        | zero =>
          simp only [List.getElem?_cons_zero, Option.some.injEq] at hj
          refine Or.inr ⟨item.instance_id, item.daemon_id, ?_⟩
          rw [← hj]
          have harith : idx + 0 = idx := by omega
          rw [harith]
        | succ k =>
          simp only [List.getElem?_cons_succ] at hj
          rcases hseg k seg hj with h | ⟨u, dm, hs⟩
          · exact Or.inl h
          · refine Or.inr ⟨u, dm, ?_⟩
            rw [hs]
            have harith : idx + 1 + k = idx + (k + 1) := by omega
            rw [harith]

/-- C8 counterexample: in the batch `["1", "2"]` where the final item
(Beta, `uA2`) is cooling down (last action at 995, clock 1000), the trace
contains three pacing sleeps — after the announcement, after item 1's
dispatch, and one more after the final, skipped item — whereas the claim
("one pause after the announcement and one after every item except the
last; no pause follows the final item") entails exactly two.  The
skipped final item is followed by a pause. -/
theorem c8_counterexample :
    mcsm_start_batch cfg0 scenData [(uA2, 995)] 2 envOK ["1", "2"] =
      [Event.emit "🚀 开始批量启动 2 个实例...",
        Event.sleep 2,
        Event.apiCall "/protected_instance/open" uA1 "nodeA",
        Event.sleep 2,
        Event.sleep 2,
        Event.emit
          "📊 批量启动完成: 成功 1 个，失败 1 个\n\n✅ Alpha 启动命令已发送\n⏳ Beta 操作太快了，跳过\n\n❌ 失败详情:\nBeta: 操作太快"] ∧
    ((mcsm_start_batch cfg0 scenData [(uA2, 995)] 2 envOK ["1", "2"]).filter
      Event.isSleep).length = 3 ∧
    ¬ ((mcsm_start_batch cfg0 scenData [(uA2, 995)] 2 envOK ["1", "2"]).filter
      Event.isSleep).length = 2 := by
  refine ⟨by decide, by decide, by decide⟩

/-- C8 (amended): one pacing pause follows the batch-start announcement
before the first dispatch; thereafter the loop trace splits into one
segment per resolved item, where a dispatched item's segment is its API
call followed by a pacing pause exactly when the item is not the last,
while a cooldown-skipped item's segment is always a lone pacing pause —
including when the skipped item is the last of the batch. -/
theorem c8_pacing (cfg : Config) (d : InstanceData)
    (cooldowns0 : List (String × ℤ)) (interval : ℚ) (env : Nat → ItemEnv)
    (identifiers : List String) (items : List BatchItem) (failed : List String)
    (hcol : collect_instances_for_batch cfg d identifiers = some (items, failed))
    (hne : ¬ items = []) :
    ∃ segs : List (List Event),
      mcsm_start_batch cfg d cooldowns0 interval env identifiers =
        [Event.emit ("🚀 开始批量启动 " ++ toString items.length ++ " 个实例..."),
          Event.sleep interval] ++ segs.flatten ++
        [Event.emit (batchSummary "启动"
          (batchLoop interval "启动" "/protected_instance/open" env items.length 1 items
            ⟨cooldowns0, 0, 0, [], [], []⟩) failed)] ∧
      segs.length = items.length ∧
      ∀ (j : Nat) (seg : List Event), segs[j]? = some seg →
        seg = [Event.sleep interval] ∨
        ∃ u dm : String, seg = Event.apiCall "/protected_instance/open" u dm ::
          (if j + 1 < items.length then [Event.sleep interval] else []) := by
  obtain ⟨segs, he, hlen, hseg⟩ := batchLoop_segments interval "启动" "/protected_instance/open"
    env items.length items 1 ⟨cooldowns0, 0, 0, [], [], []⟩
  refine ⟨segs, ?_, hlen, ?_⟩
  · rw [mcsm_start_batch_some cfg d cooldowns0 interval env identifiers items failed hcol hne,
      he]
    rfl
  · intro j seg hj
    rcases hseg j seg hj with h | ⟨u, dm, hs⟩
    · exact Or.inl h
    · refine Or.inr ⟨u, dm, ?_⟩
      rw [hs]
      have harith : 1 + j = j + 1 := by omega
      rw [harith]

/-- Witness for C8 (amended) at the concrete batch `["1", "2"]` with the
final item cooling down. -/
theorem c8_pacing_witness :
    ∃ segs : List (List Event),
      mcsm_start_batch cfg0 scenData [(uA2, 995)] 2 envOK ["1", "2"] =
        [Event.emit ("🚀 开始批量启动 " ++
            toString ([(⟨"1", "nodeA", uA1, "Alpha"⟩ : BatchItem),
              ⟨"2", "nodeA", uA2, "Beta"⟩].length) ++ " 个实例..."),
          Event.sleep 2] ++ segs.flatten ++
        [Event.emit (batchSummary "启动"
          (batchLoop 2 "启动" "/protected_instance/open" envOK 2 1
            [⟨"1", "nodeA", uA1, "Alpha"⟩, ⟨"2", "nodeA", uA2, "Beta"⟩]
            ⟨[(uA2, 995)], 0, 0, [], [], []⟩) [])] ∧
      segs.length = ([(⟨"1", "nodeA", uA1, "Alpha"⟩ : BatchItem),
        ⟨"2", "nodeA", uA2, "Beta"⟩] : List BatchItem).length ∧
      ∀ (j : Nat) (seg : List Event), segs[j]? = some seg →
        seg = [Event.sleep 2] ∨
        ∃ u dm : String, seg = Event.apiCall "/protected_instance/open" u dm ::
          (if j + 1 < ([(⟨"1", "nodeA", uA1, "Alpha"⟩ : BatchItem),
            ⟨"2", "nodeA", uA2, "Beta"⟩] : List BatchItem).length
           then [Event.sleep 2] else []) :=
  c8_pacing cfg0 scenData [(uA2, 995)] 2 envOK ["1", "2"]
    [⟨"1", "nodeA", uA1, "Alpha"⟩, ⟨"2", "nodeA", uA2, "Beta"⟩] [] (by decide) (by decide)

/-- C10: the background refresh (`_refresh_instance_cache_async`) and the
cache-building portion of the `mcsm_list` command are equivalent cache
builders: for every configuration and every fixed set of upstream
responses they produce the identical `instance_data` — same records in
the same order with the same indices, names, uuids, daemon ids and
statuses, and the same `name_to_id`, `uuid_to_id` and `ambiguous_names`.
(Both fail in the same way when the overview yields no nodes.) -/
theorem c10_list_refresh_equivalent (cfg : Config) (nodes : List NodeResp) :
    listCacheBuild cfg nodes = refreshCache cfg nodes := rfl
